import Mathlib

/-!
Verification of the spreadsheet normalization / reconciliation core of the
`comparador-excel` repository (`backend/excel_processor.py`).

Strings are modelled as lists of characters (`Str`).  Quantities are modelled
over `ℚ`: the Python code computes with IEEE floats, but every claim under
scrutiny is about the exact decimal values the parsing produces, and the spec
fixes quantities to be plain finite numbers, so rationals are the faithful
exact-arithmetic embedding.  Python `str.upper`/`str.lower` are full-Unicode;
the embedding covers ASCII plus the Spanish accented vowels and ñ that occur
in the data this tool processes, which is the alphabet all pattern lists and
keywords of the source range over.
-/

/-- Character strings, modelled as lists of characters. -/
abbrev Str := List Char

/-- Shorthand to turn a Lean string literal into a `Str`. -/
def S (s : String) : Str := s.data

/-- Whitespace recognised by Python's `str.strip`. -/
def isSpaceCh (c : Char) : Bool :=
  c == ' ' || c == '\t' || c == '\n' || c == '\r' || c == '\x0b' || c == '\x0c'

/-- Python `str.strip`: drop whitespace from both ends. -/
def trim (s : Str) : Str :=
  ((s.dropWhile isSpaceCh).reverse.dropWhile isSpaceCh).reverse

/-- Lower/upper case pairs: ASCII letters plus the accented letters used by
the source's keyword vocabulary and pattern lists. -/
def caseMap : List (Char × Char) :=
  [('a','A'), ('b','B'), ('c','C'), ('d','D'), ('e','E'), ('f','F'), ('g','G'),
   ('h','H'), ('i','I'), ('j','J'), ('k','K'), ('l','L'), ('m','M'), ('n','N'),
   ('o','O'), ('p','P'), ('q','Q'), ('r','R'), ('s','S'), ('t','T'), ('u','U'),
   ('v','V'), ('w','W'), ('x','X'), ('y','Y'), ('z','Z'),
   ('á','Á'), ('é','É'), ('í','Í'), ('ó','Ó'), ('ú','Ú'), ('ñ','Ñ'), ('ü','Ü')]

/-- Python `str.upper` on one character. -/
def upperChar (c : Char) : Char :=
  ((caseMap.find? (fun p => p.1 == c)).map (fun p => p.2)).getD c

/-- Python `str.lower` on one character. -/
def lowerChar (c : Char) : Char :=
  ((caseMap.find? (fun p => p.2 == c)).map (fun p => p.1)).getD c

/-- Python `str.upper`. -/
def upperStr (s : Str) : Str := s.map upperChar

/-- Python `str.lower`. -/
def lowerStr (s : Str) : Str := s.map lowerChar

/-- Decimal digits, structurally recursive on a fuel argument so the kernel
can evaluate it; the fuel strictly exceeds the number of divisions by ten, so
the `0` case is unreachable. -/
def natDigitsGo : Nat → Nat → Str
  | 0, _ => []
  | fuel + 1, n =>
    if n < 10 then [Nat.digitChar n]
    else natDigitsGo fuel (n / 10) ++ [Nat.digitChar (n % 10)]

/-- Decimal digits of a natural number, most significant first
(`str` of a nonnegative Python int). -/
def natDigits (n : Nat) : Str := natDigitsGo (n + 1) n

/-- Python `str` of an int. -/
def intStr (n : Int) : Str :=
  if n < 0 then '-' :: natDigits n.natAbs else natDigits n.toNat

/-- ASCII decimal digit test. -/
def isDig (c : Char) : Bool := '0' ≤ c && c ≤ '9'

/-- Value of a digit string (most significant first). -/
def natOfDigits (l : Str) : Nat := l.foldl (fun a c => 10 * a + (c.toNat - 48)) 0

/-- Exact value of a Python numeric literal: optional sign, decimal mantissa
(digits with an optional single point), optional `e`/`E` exponent.  This is the
grammar shared by `float()` and `Decimal()` on the strings this program feeds
them; the special spellings (`inf`, `nan`, underscore grouping) are outside the
finite exact values the spec's quantities range over and yield `none`. -/
def pyFloat (s : Str) : Option ℚ :=
  let sgn : ℚ × Str :=
    match s with
    | '+' :: t => (1, t)
    | '-' :: t => (-1, t)
    | t => (1, t)
  let ip := sgn.2.takeWhile isDig
  let s2 := sgn.2.dropWhile isDig
  let fps : Str × Str :=
    match s2 with
    | '.' :: t => (t.takeWhile isDig, t.dropWhile isDig)
    | t => ([], t)
  if ip = [] ∧ fps.1 = [] then none
  else
    let mant : ℚ := (natOfDigits ip : ℚ) + (natOfDigits fps.1 : ℚ) / (10 : ℚ) ^ fps.1.length
    match fps.2 with
    | [] => some (sgn.1 * mant)
    | e :: t =>
      if e == 'e' || e == 'E' then
        let esgn : Bool × Str :=
          match t with
          | '+' :: u => (true, u)
          | '-' :: u => (false, u)
          | u => (true, u)
        let ed := esgn.2.takeWhile isDig
        if ed = [] ∨ esgn.2.dropWhile isDig ≠ [] then none
        else some (if esgn.1 then sgn.1 * mant * (10 : ℚ) ^ natOfDigits ed
                   else sgn.1 * mant / (10 : ℚ) ^ natOfDigits ed)
      else none

/-- `code.endswith('.0')`. -/
def endsWithDotZero (s : Str) : Bool :=
  match s.reverse with
  | '0' :: '.' :: _ => true
  | _ => false

/-- Python `c in s` for a single character. -/
def hasCh (c : Char) : Str → Bool
  | [] => false
  | d :: t => d == c || hasCh c t

/-- The scientific-notation stage of `clean_code_format`: if the (already
uppercased) code contains `'E'`, parse it as a `Decimal` and, when the value is
integral, re-render it as a plain integer string (`Decimal` is modelled exactly
over `ℚ`; `int` of an integral `Decimal` is its numerator; a failed `Decimal`
parse leaves the code unchanged). -/
def sciStage (c2 : Str) : Str :=
  if hasCh 'E' (upperStr c2) then
    match pyFloat c2 with
    | some q => if q.den = 1 then intStr q.num else c2
    | none => c2
  else c2

/-- The `.0`-suffix stage of `clean_code_format`: drop a trailing `".0"`
(`code[:-2]`), then apply the scientific-notation stage. -/
def dotZeroStage (c1 : Str) : Str :=
  sciStage (if endsWithDotZero c1 then c1.dropLast.dropLast else c1)

/-- `clean_code_format` from `excel_processor.py`:
`str(code).strip().upper()`, then the `.0`-suffix and scientific-notation
stages. -/
def clean_code_format (code : Str) : Str :=
  dotZeroStage (upperStr (trim code))

/-- Number of occurrences of a character. -/
def countCh (c : Char) (s : Str) : Nat := (s.filter (fun d => d == c)).length

/-- Number of characters strictly after the last occurrence of `c`
(`len(s) - s.rfind(c) - 1`); equals `s.length` if `c` is absent. -/
def afterCh (c : Char) (s : Str) : Nat :=
  (s.reverse.takeWhile (fun d => !(d == c))).length

/-- Replace every comma by a dot (`val_str.replace(',', '.')`). -/
def commaToDot (s : Str) : Str := s.map (fun c => if c == ',' then '.' else c)

/-- Remove every occurrence of a character (`val_str.replace(c, '')`). -/
def dropCh (c : Char) (s : Str) : Str := s.filter (fun d => !(d == c))

/-- The stripped, space-free string `clean_quantity` classifies separators on. -/
def qnorm (s : Str) : Str := (trim s).filter (fun c => !(c == ' '))

/-- The separator-disambiguation cascade of `clean_quantity`, branch for
branch in source order, applied to the stripped space-free value. -/
def sepNormalize (s : Str) : Str :=
  let dots := countCh '.' s
  let commas := countCh ',' s
  if dots = 1 ∧ commas = 0 then s
  else if dots = 0 ∧ commas = 1 then
    if afterCh ',' s ≤ 2 then commaToDot s else dropCh ',' s
  else if 1 ≤ dots ∧ 1 ≤ commas then
    if afterCh ',' s < afterCh '.' s then commaToDot (dropCh '.' s)
    else dropCh ',' s
  else if 1 < commas then dropCh ',' s
  else if 1 < dots then dropCh '.' s
  else s

/-- `clean_quantity` from `excel_processor.py`.  The argument is the raw cell:
`none` models a missing/NaN cell (`pd.isna`).  A residual parse failure
degrades to `0`. -/
def clean_quantity : Option Str → ℚ
  | none => 0
  | some v =>
    if trim v = [] ∨ upperStr (trim v) = S "NAN" then 0
    else (pyFloat (sepNormalize (qnorm v))).getD 0

/-! ### Character-level facts used for code-normalization reasoning -/

theorem upperChar_upperChar (c : Char) : upperChar (upperChar c) = upperChar c := by
  rcases h : caseMap.find? (fun p => p.1 == c) with _ | p
  · have e1 : upperChar c = c := by simp [upperChar, h]
    rw [e1]
    exact e1
  · have e1 : upperChar c = p.2 := by simp [upperChar, h]
    have hp : p ∈ caseMap := List.mem_of_find?_eq_some h
    have hnone : ∀ q ∈ caseMap, caseMap.find? (fun r => r.1 == q.2) = none := by decide
    have e2 : upperChar p.2 = p.2 := by simp [upperChar, hnone p hp]
    rw [e1, e2]

theorem upperStr_eq_self_iff (s : Str) :
    upperStr s = s ↔ ∀ c ∈ s, upperChar c = c := by
  induction s with
  | nil => simp [upperStr]
  | cons a t ih => simp_all [upperStr]

theorem upperStr_idem (s : Str) : upperStr (upperStr s) = upperStr s := by
  rw [upperStr_eq_self_iff]
  intro c hc
  rcases List.mem_map.mp hc with ⟨d, _, rfl⟩
  exact upperChar_upperChar d

theorem digitChar_mem (k : Nat) (hk : k < 10) : Nat.digitChar k ∈ S "0123456789" := by
  interval_cases k <;> decide

theorem natDigitsGo_mem (fuel : Nat) :
    ∀ n, ∀ c ∈ natDigitsGo fuel n, c ∈ S "0123456789" := by
  induction fuel with
  | zero =>
    intro n c hc
    simp [natDigitsGo] at hc
  | succ fuel ih =>
    intro n c hc
    rw [natDigitsGo] at hc
    split at hc
    · rename_i h
      rcases List.mem_singleton.mp hc with rfl
      exact digitChar_mem n h
    · rename_i h
      rcases List.mem_append.mp hc with hl | hr
      · exact ih (n / 10) c hl
      · rcases List.mem_singleton.mp hr with rfl
        exact digitChar_mem (n % 10) (Nat.mod_lt _ (by omega))

theorem natDigits_mem (n : Nat) : ∀ c ∈ natDigits n, c ∈ S "0123456789" :=
  natDigitsGo_mem (n + 1) n

theorem intStr_mem (n : Int) : ∀ c ∈ intStr n, c ∈ '-' :: S "0123456789" := by
  intro c hc
  unfold intStr at hc
  split at hc
  · rcases List.mem_cons.mp hc with rfl | h
    · exact List.mem_cons_self _ _
    · exact List.mem_cons_of_mem _ (natDigits_mem _ _ h)
  · exact List.mem_cons_of_mem _ (natDigits_mem _ _ hc)

theorem hasCh_eq_false_iff (c : Char) (s : Str) :
    hasCh c s = false ↔ ∀ d ∈ s, d ≠ c := by
  induction s with
  | nil => simp [hasCh]
  | cons a t ih => simp_all [hasCh]

theorem upperStr_intStr (n : Int) : upperStr (intStr n) = intStr n := by
  rw [upperStr_eq_self_iff]
  intro c hc
  have h := intStr_mem n c hc
  fin_cases h <;> decide

theorem intStr_hasE (n : Int) : hasCh 'E' (intStr n) = false := by
  rw [hasCh_eq_false_iff]
  intro d hd
  have h := intStr_mem n d hd
  fin_cases h <;> decide

theorem upperStr_dropLast (s : Str) (h : upperStr s = s) :
    upperStr s.dropLast = s.dropLast := by
  rw [upperStr_eq_self_iff] at h ⊢
  intro c hc
  exact h c ((List.dropLast_sublist s).subset hc)

theorem upperStr_sciStage (s : Str) (h : upperStr s = s) :
    upperStr (sciStage s) = sciStage s := by
  unfold sciStage
  split
  · rcases hq : pyFloat s with _ | q
    · exact h
    · by_cases hden : q.den = 1
      · simp only [if_pos hden]
        exact upperStr_intStr q.num
      · simp only [if_neg hden]
        exact h
  · exact h

theorem upperStr_clean_code_format (x : Str) :
    upperStr (clean_code_format x) = clean_code_format x := by
  unfold clean_code_format dotZeroStage
  apply upperStr_sciStage
  split
  · exact upperStr_dropLast _ (upperStr_dropLast _ (upperStr_idem _))
  · exact upperStr_idem _

theorem sciStage_idem (s : Str) :
    sciStage (sciStage s) = sciStage s := by
  cases hE : hasCh 'E' (upperStr s) with
  | false =>
    have e : sciStage s = s := by unfold sciStage; rw [hE]; simp
    rw [e]
    exact e
  | true =>
    rcases hq : pyFloat s with _ | q
    · have e : sciStage s = s := by unfold sciStage; rw [hE, hq]; simp
      rw [e]
      exact e
    · by_cases hden : q.den = 1
      · have e : sciStage s = intStr q.num := by
          unfold sciStage; rw [hE, hq]; simp [hden]
        rw [e]
        unfold sciStage
        rw [upperStr_intStr, intStr_hasE]
        simp
      · have e : sciStage s = s := by
          unfold sciStage; rw [hE, hq]; simp [hden]
        rw [e]
        exact e

/-- C3 (amended): code normalization is idempotent on every input whose
normalized form neither still ends in ".0" nor carries leading/trailing
whitespace; a second application can only differ by stripping a further ".0"
suffix or whitespace exposed by the first pass. -/
theorem clean_code_format_idem_of_clean (x : Str)
    (h1 : endsWithDotZero (clean_code_format x) = false)
    (h2 : trim (clean_code_format x) = clean_code_format x) :
    clean_code_format (clean_code_format x) = clean_code_format x := by
  have hup : upperStr (clean_code_format x) = clean_code_format x :=
    upperStr_clean_code_format x
  calc clean_code_format (clean_code_format x)
      = dotZeroStage (upperStr (trim (clean_code_format x))) := rfl
    _ = dotZeroStage (clean_code_format x) := by rw [h2, hup]
    _ = sciStage (clean_code_format x) := by unfold dotZeroStage; rw [h1]; simp
    _ = clean_code_format x := by
        show sciStage (dotZeroStage (upperStr (trim x))) = _
        unfold dotZeroStage
        exact sciStage_idem _

/-- C3 counterexample: `clean_code_format` is not idempotent as claimed; on
"806.0.0" a first pass yields "806.0" and a second pass strips a further ".0",
yielding "806". -/
theorem clean_code_format_not_idempotent :
    clean_code_format (S "806.0.0") = S "806.0" ∧
    clean_code_format (clean_code_format (S "806.0.0")) = S "806" ∧
    clean_code_format (clean_code_format (S "806.0.0")) ≠
      clean_code_format (S "806.0.0") := by decide

/-- C3 witness: the amended idempotence theorem applied at "806.0", whose
normalized form "806" is clean. -/
theorem clean_code_format_idem_witness :
    (endsWithDotZero (clean_code_format (S "806.0")) = false ∧
     trim (clean_code_format (S "806.0")) = clean_code_format (S "806.0")) ∧
    clean_code_format (clean_code_format (S "806.0")) = clean_code_format (S "806.0") :=
  ⟨by decide, clean_code_format_idem_of_clean (S "806.0") (by decide) (by decide)⟩

/-! ### Quantity parsing (C2) -/

theorem sepNormalize_mixed_lastComma (s : Str) (h3 : 1 ≤ countCh '.' s)
    (h4 : countCh ',' s = 1) (h5 : afterCh ',' s < afterCh '.' s) :
    sepNormalize s = commaToDot (dropCh '.' s) := by
  have c1 : ¬ (countCh '.' s = 1 ∧ countCh ',' s = 0) := fun h => by omega
  have c2 : ¬ (countCh '.' s = 0 ∧ countCh ',' s = 1) := fun h => by omega
  simp only [sepNormalize]
  rw [if_neg c1, if_neg c2, if_pos ⟨h3, by omega⟩, if_pos h5]

theorem sepNormalize_mixed_lastDot (s : Str) (h3 : countCh '.' s = 1)
    (h4 : 1 ≤ countCh ',' s) (h5 : afterCh '.' s < afterCh ',' s) :
    sepNormalize s = dropCh ',' s := by
  have c1 : ¬ (countCh '.' s = 1 ∧ countCh ',' s = 0) := fun h => by omega
  have c2 : ¬ (countCh '.' s = 0 ∧ countCh ',' s = 1) := fun h => by omega
  simp only [sepNormalize]
  rw [if_neg c1, if_neg c2, if_pos ⟨by omega, h4⟩, if_neg (by omega)]

theorem sepNormalize_singleComma_dec (s : Str) (h3 : countCh '.' s = 0)
    (h4 : countCh ',' s = 1) (h5 : afterCh ',' s ≤ 2) :
    sepNormalize s = commaToDot s := by
  have c1 : ¬ (countCh '.' s = 1 ∧ countCh ',' s = 0) := fun h => by omega
  simp only [sepNormalize]
  rw [if_neg c1, if_pos ⟨h3, h4⟩, if_pos h5]

theorem clean_quantity_eval (v : Str) (h1 : trim v ≠ [])
    (h2 : upperStr (trim v) ≠ S "NAN") :
    clean_quantity (some v) = (pyFloat (sepNormalize (qnorm v))).getD 0 := by
  show (if trim v = [] ∨ upperStr (trim v) = S "NAN" then 0
        else (pyFloat (sepNormalize (qnorm v))).getD 0) = _
  rw [if_neg (not_or.mpr ⟨h1, h2⟩)]

/-- Spec-side rule (refinement comparison for C2), following the spec's words:
the separator (`.` or `,`) appearing last in the string is the decimal point,
and all earlier separators are dropped as thousands separators.  Processes the
string from the right; `seen` records whether the last separator was already
emitted. -/
def lastSepAux : List Char → Bool → List Char
  | [], _ => []
  | c :: t, seen =>
    if c == ',' || c == '.' then
      if seen then lastSepAux t true else '.' :: lastSepAux t true
    else c :: lastSepAux t seen

/-- Spec-side rule (refinement comparison for C2): keep only the last
separator, normalized to a decimal point. -/
def specLastSepString (s : Str) : Str := (lastSepAux s.reverse false).reverse

/-- C2 (amended): the separator-disambiguation rules of `clean_quantity`,
restricted to the inputs on which the "last separator wins" reading holds:
when both `.` and `,` are present and the kind of separator appearing last
occurs exactly once, that separator is the decimal point and the earlier ones
are dropped; a lone comma followed by at most two characters is a decimal
point; and the concrete values `parse "1,234.56" = parse "1.234,56" = 1234.56`,
`parse "1,5" = 1.5`, `parse "" = 0`, `parse "abc" = 0` all hold. -/
theorem clean_quantity_separator_rules :
    (∀ s : Str, trim s ≠ [] → upperStr (trim s) ≠ S "NAN" →
      1 ≤ countCh '.' (qnorm s) → countCh ',' (qnorm s) = 1 →
      afterCh ',' (qnorm s) < afterCh '.' (qnorm s) →
      clean_quantity (some s) = (pyFloat (commaToDot (dropCh '.' (qnorm s)))).getD 0) ∧
    (∀ s : Str, trim s ≠ [] → upperStr (trim s) ≠ S "NAN" →
      countCh '.' (qnorm s) = 1 → 1 ≤ countCh ',' (qnorm s) →
      afterCh '.' (qnorm s) < afterCh ',' (qnorm s) →
      clean_quantity (some s) = (pyFloat (dropCh ',' (qnorm s))).getD 0) ∧
    (∀ s : Str, trim s ≠ [] → upperStr (trim s) ≠ S "NAN" →
      countCh '.' (qnorm s) = 0 → countCh ',' (qnorm s) = 1 →
      afterCh ',' (qnorm s) ≤ 2 →
      clean_quantity (some s) = (pyFloat (commaToDot (qnorm s))).getD 0) ∧
    clean_quantity (some (S "1,234.56")) = 1234.56 ∧
    clean_quantity (some (S "1.234,56")) = 1234.56 ∧
    clean_quantity (some (S "1,5")) = 1.5 ∧
    clean_quantity (some (S "")) = 0 ∧
    clean_quantity (some (S "abc")) = 0 := by
  refine ⟨?_, ?_, ?_, ?_, ?_, ?_, rfl, rfl⟩
  · intro s h1 h2 h3 h4 h5
    rw [clean_quantity_eval s h1 h2, sepNormalize_mixed_lastComma _ h3 h4 h5]
  · intro s h1 h2 h3 h4 h5
    rw [clean_quantity_eval s h1 h2, sepNormalize_mixed_lastDot _ h3 h4 h5]
  · intro s h1 h2 h3 h4 h5
    rw [clean_quantity_eval s h1 h2, sepNormalize_singleComma_dec _ h3 h4 h5]
  · rw [clean_quantity_eval _ (by decide) (by decide)]
    have e1 : sepNormalize (qnorm (S "1,234.56")) = S "1234.56" := by decide
    rw [e1]
    have e2 : pyFloat (S "1234.56") =
        some ((1 : ℚ) * ((natOfDigits (S "1234") : ℚ) +
          (natOfDigits (S "56") : ℚ) / (10 : ℚ) ^ (S "56").length)) := rfl
    rw [e2]
    have e3 : natOfDigits (S "1234") = 1234 := by decide
    have e4 : natOfDigits (S "56") = 56 := by decide
    have e5 : (S "56").length = 2 := by decide
    rw [e3, e4, e5]
    norm_num
  · rw [clean_quantity_eval _ (by decide) (by decide)]
    have e1 : sepNormalize (qnorm (S "1.234,56")) = S "1234.56" := by decide
    rw [e1]
    have e2 : pyFloat (S "1234.56") =
        some ((1 : ℚ) * ((natOfDigits (S "1234") : ℚ) +
          (natOfDigits (S "56") : ℚ) / (10 : ℚ) ^ (S "56").length)) := rfl
    rw [e2]
    have e3 : natOfDigits (S "1234") = 1234 := by decide
    have e4 : natOfDigits (S "56") = 56 := by decide
    have e5 : (S "56").length = 2 := by decide
    rw [e3, e4, e5]
    norm_num
  · rw [clean_quantity_eval _ (by decide) (by decide)]
    have e1 : sepNormalize (qnorm (S "1,5")) = S "1.5" := by decide
    rw [e1]
    have e2 : pyFloat (S "1.5") =
        some ((1 : ℚ) * ((natOfDigits (S "1") : ℚ) +
          (natOfDigits (S "5") : ℚ) / (10 : ℚ) ^ (S "5").length)) := rfl
    rw [e2]
    have e3 : natOfDigits (S "1") = 1 := by decide
    have e4 : natOfDigits (S "5") = 5 := by decide
    have e5 : (S "5").length = 1 := by decide
    rw [e3, e4, e5]
    norm_num

/-- C2 counterexample: on "1.2,3,4" the last separator is a comma, so the
claimed rule predicts the value 123.4; the code instead replaces every comma
by a dot, producing the unparseable "12.3.4", and degrades to 0. -/
theorem clean_quantity_last_sep_cex :
    clean_quantity (some (S "1.2,3,4")) = 0 ∧
    specLastSepString (qnorm (S "1.2,3,4")) = S "123.4" ∧
    (pyFloat (specLastSepString (qnorm (S "1.2,3,4")))).getD 0 = 1234 / 10 ∧
    (0 : ℚ) ≠ 1234 / 10 := by
  refine ⟨rfl, by decide, ?_, by norm_num⟩
  have e1 : specLastSepString (qnorm (S "1.2,3,4")) = S "123.4" := by decide
  rw [e1]
  have e2 : pyFloat (S "123.4") =
      some ((1 : ℚ) * ((natOfDigits (S "123") : ℚ) +
        (natOfDigits (S "4") : ℚ) / (10 : ℚ) ^ (S "4").length)) := rfl
  rw [e2]
  have e3 : natOfDigits (S "123") = 123 := by decide
  have e4 : natOfDigits (S "4") = 4 := by decide
  have e5 : (S "4").length = 1 := by decide
  rw [e3, e4, e5]
  norm_num

/-- C2 witness: the three conditional separator rules applied at concrete
inputs satisfying their hypotheses. -/
theorem clean_quantity_separator_rules_witness :
    clean_quantity (some (S "1.234,56")) =
      (pyFloat (commaToDot (dropCh '.' (qnorm (S "1.234,56"))))).getD 0 ∧
    clean_quantity (some (S "12,34.5")) =
      (pyFloat (dropCh ',' (qnorm (S "12,34.5")))).getD 0 ∧
    clean_quantity (some (S "1,5")) =
      (pyFloat (commaToDot (qnorm (S "1,5")))).getD 0 :=
  ⟨clean_quantity_separator_rules.1 (S "1.234,56")
      (by decide) (by decide) (by decide) (by decide) (by decide),
   clean_quantity_separator_rules.2.1 (S "12,34.5")
      (by decide) (by decide) (by decide) (by decide) (by decide),
   clean_quantity_separator_rules.2.2.1 (S "1,5")
      (by decide) (by decide) (by decide) (by decide) (by decide)⟩

/-! ### Column classifier (`detect_column`, C7/C8)

The source matches column names with `re.match` against anchored patterns
built from literals, character classes, an optional dot (`\.?`), `\s*`, and
`.*`.  `RItem` is that pattern alphabet and `matchItems` the matcher; all
source patterns are `^...$`-anchored so a match must consume the whole
(already lowercased, stripped) column name.  `.` does not match a newline,
as in `re`. -/

inductive RItem where
  | lit (c : Char)
  | cls (cs : List Char)
  | optDot
  | wsStar
  | anyStar
deriving DecidableEq

/-- The matcher, structurally recursive on a fuel argument so the kernel can
evaluate it.  Every recursive call strictly decreases `ps.length + s.length`,
so fuel `ps.length + s.length + 1` makes the `0` case unreachable. -/
def matchGo : Nat → List RItem → List Char → Bool
  | 0, _, _ => false
  | fuel + 1, ps0, s0 =>
    match ps0, s0 with
    | [], [] => true
    | [], _ :: _ => false
    | RItem.lit _ :: _, [] => false
    | RItem.lit c :: ps, d :: s => c == d && matchGo fuel ps s
    | RItem.cls _ :: _, [] => false
    | RItem.cls cs :: ps, d :: s => cs.contains d && matchGo fuel ps s
    | RItem.optDot :: ps, [] => matchGo fuel ps []
    | RItem.optDot :: ps, d :: s =>
        matchGo fuel ps (d :: s) || (d == '.' && matchGo fuel ps s)
    | RItem.wsStar :: ps, [] => matchGo fuel ps []
    | RItem.wsStar :: ps, d :: s =>
        matchGo fuel ps (d :: s) || (isSpaceCh d && matchGo fuel (RItem.wsStar :: ps) s)
    | RItem.anyStar :: ps, [] => matchGo fuel ps []
    | RItem.anyStar :: ps, d :: s =>
        matchGo fuel ps (d :: s) || (!(d == '\n') && matchGo fuel (RItem.anyStar :: ps) s)

def matchItems (ps : List RItem) (s : List Char) : Bool :=
  matchGo (ps.length + s.length + 1) ps s

/-- Literal pattern fragment. -/
def lits (s : String) : List RItem := s.data.map RItem.lit

/-- `CODIGO_PATTERNS` from the source, one entry per regex. -/
def CODIGO_PATTERNS : List (List RItem) :=
  [ [RItem.lit 'c', RItem.cls ['o', 'ó']] ++ lits "digo" ++ [RItem.anyStar],
    lits "cod" ++ [RItem.optDot, RItem.anyStar],
    lits "sku" ++ [RItem.anyStar],
    lits "id",
    lits "codigo",
    [RItem.lit 'c', RItem.cls ['o', 'ó'], RItem.lit 'd', RItem.optDot, RItem.wsStar] ++
      lits "producto" ++ [RItem.anyStar],
    lits "item",
    lits "referencia" ++ [RItem.anyStar],
    lits "ref" ++ [RItem.optDot],
    lits "art" ++ [RItem.cls ['i', 'í']] ++ lits "culo" ++ [RItem.anyStar],
    lits "cod" ++ [RItem.anyStar] ++ lits "art" ++ [RItem.anyStar],
    lits "clave" ++ [RItem.anyStar],
    lits "num" ++ [RItem.anyStar],
    [RItem.lit 'n', RItem.cls ['u', 'ú']] ++ lits "mero" ++ [RItem.anyStar],
    lits "parte" ++ [RItem.anyStar],
    [RItem.lit 'c', RItem.cls ['o', 'ó'], RItem.lit 'd', RItem.anyStar],
    lits "barcode" ++ [RItem.anyStar],
    lits "upc",
    lits "ean",
    lits "plu" ]

/-- `PRODUCTO_PATTERNS` from the source, one entry per regex. -/
def PRODUCTO_PATTERNS : List (List RItem) :=
  [ lits "producto" ++ [RItem.anyStar],
    lits "descripci" ++ [RItem.cls ['o', 'ó']] ++ lits "n" ++ [RItem.anyStar],
    lits "nombre" ++ [RItem.anyStar],
    lits "art" ++ [RItem.cls ['i', 'í']] ++ lits "culo" ++ [RItem.anyStar],
    lits "item",
    lits "detalle" ++ [RItem.anyStar],
    lits "material" ++ [RItem.anyStar],
    lits "desc" ++ [RItem.optDot, RItem.anyStar],
    lits "denominaci" ++ [RItem.cls ['o', 'ó']] ++ lits "n" ++ [RItem.anyStar],
    lits "especificaci" ++ [RItem.cls ['o', 'ó']] ++ lits "n" ++ [RItem.anyStar],
    lits "concepto" ++ [RItem.anyStar] ]

/-- `CANTIDAD_PATTERNS` from the source, one entry per regex. -/
def CANTIDAD_PATTERNS : List (List RItem) :=
  [ lits "cant" ++ [RItem.optDot, RItem.wsStar] ++ lits "final" ++ [RItem.anyStar],
    lits "cantidad" ++ [RItem.anyStar],
    lits "cant" ++ [RItem.optDot, RItem.anyStar],
    lits "qty" ++ [RItem.anyStar],
    lits "unidades" ++ [RItem.anyStar],
    lits "stock" ++ [RItem.anyStar],
    lits "existencia" ++ [RItem.anyStar],
    lits "saldo" ++ [RItem.anyStar],
    lits "und" ++ [RItem.optDot, RItem.anyStar],
    lits "pzs" ++ [RItem.optDot, RItem.anyStar],
    lits "total" ++ [RItem.anyStar],
    lits "unid" ++ [RItem.anyStar],
    lits "piezas" ++ [RItem.anyStar],
    lits "disponible" ++ [RItem.anyStar],
    lits "inventario" ++ [RItem.anyStar],
    lits "disp" ++ [RItem.anyStar],
    lits "almac" ++ [RItem.cls ['e', 'é']] ++ lits "n" ++ [RItem.anyStar],
    lits "bodega" ++ [RItem.anyStar],
    [RItem.lit 'f', RItem.cls ['i', 'í']] ++ lits "sico" ++ [RItem.anyStar],
    lits "conteo" ++ [RItem.anyStar] ]

/-- The column-name normalization of `detect_column`:
`str(col).lower().strip()`. -/
def colClean (col : Str) : Str := trim (lowerStr col)

/-- One column name matches the role when some pattern in the role's list
matches it (the inner `for pattern in patterns` loop). -/
def matchesAny (patterns : List (List RItem)) (s : Str) : Bool :=
  patterns.any (fun p => matchItems p s)

/-- `detect_column` from the source: scan columns left to right, return the
first whose cleaned name matches any pattern of the role. -/
def detect_column : List Str → List (List RItem) → Option Str
  | [], _ => none
  | col :: rest, patterns =>
    if matchesAny patterns (colClean col) then some col
    else detect_column rest patterns

/-- Python `sep.join(strs)`. -/
def joinSep (sep : Str) : List Str → Str
  | [] => []
  | [s] => s
  | s :: rest => s ++ sep ++ joinSep sep rest

/-- The diagnostic column listing of `process_excel_file`: the stripped labels,
first 10 only, with a `... (+k más)` truncation suffix when more exist. -/
def available_cols_str (cols : List Str) : Str :=
  joinSep (S ", ") ((cols.map trim).take 10) ++
    (if 10 < cols.length then S "... (+" ++ natDigits (cols.length - 10) ++ S " más)"
     else [])

/-- The column-detection and validation stage of `process_excel_file`: detect
the three roles, fail naming Código (checked first) or Cantidad when the
mandatory role is missing, echoing the available column labels. -/
def process_detect (cols : List Str) : Except Str (Str × Option Str × Str) :=
  let avail := available_cols_str cols
  let codigo_col := detect_column cols CODIGO_PATTERNS
  let producto_col := detect_column cols PRODUCTO_PATTERNS
  let cantidad_col := detect_column cols CANTIDAD_PATTERNS
  match codigo_col with
  | none => Except.error
      (S "No se encontró la columna de Código. Columnas disponibles: " ++ avail)
  | some cc =>
    match cantidad_col with
    | none => Except.error
        (S "No se encontró la columna de Cantidad. Columnas disponibles: " ++ avail)
    | some qc => Except.ok (cc, producto_col, qc)

/-- C8: column classification by header name is "first matching column wins":
`detect_column` returns `some col` exactly when `col` is the first column in
left-to-right order whose lowercased, stripped name matches some pattern of
the role's ordered list. -/
theorem detect_column_first_match (patterns : List (List RItem)) :
    ∀ (cols : List Str) (col : Str),
      detect_column cols patterns = some col ↔
        ∃ i : Nat, cols[i]? = some col ∧ matchesAny patterns (colClean col) = true ∧
          ∀ j, j < i → ∀ c, cols[j]? = some c →
            matchesAny patterns (colClean c) = false := by
  intro cols
  induction cols with
  | nil =>
    intro col
    simp [detect_column]
  | cons c0 rest ih =>
    intro col
    by_cases h : matchesAny patterns (colClean c0) = true
    · rw [show detect_column (c0 :: rest) patterns = some c0 from by
        simp [detect_column, h]]
      constructor
      · intro he
        injection he with he
        subst he
        exact ⟨0, by simp, h, fun j hj _ _ => absurd hj (Nat.not_lt_zero j)⟩
      · rintro ⟨i, hi, hm, hall⟩
        cases i with
        | zero =>
          simp only [List.getElem?_cons_zero, Option.some.injEq] at hi
          rw [hi]
        | succ k =>
          have h0 := hall 0 (Nat.succ_pos k) c0 (by simp)
          rw [h] at h0
          cases h0
    · have hf : matchesAny patterns (colClean c0) = false := by
        simpa using h
      rw [show detect_column (c0 :: rest) patterns = detect_column rest patterns from by
        simp [detect_column, hf]]
      rw [ih col]
      constructor
      · rintro ⟨i, hi, hm, hall⟩
        refine ⟨i + 1, by simpa using hi, hm, ?_⟩
        intro j hj c hc
        cases j with
        | zero =>
          simp only [List.getElem?_cons_zero, Option.some.injEq] at hc
          rw [← hc]
          exact hf
        | succ k =>
          exact hall k (by omega) c (by simpa using hc)
      · rintro ⟨i, hi, hm, hall⟩
        cases i with
        | zero =>
          simp only [List.getElem?_cons_zero, Option.some.injEq] at hi
          subst hi
          rw [hm] at hf
          cases hf
        | succ k =>
          exact ⟨k, by simpa using hi, hm,
            fun j hj c hc => hall (j + 1) (by omega) c (by simpa using hc)⟩

deriving instance DecidableEq for Except

/-- C7 (amended): when no code column is detected, `process_excel_file` fails
naming Código (the code check precedes the quantity check) and echoing the
available column labels, first 10 with a truncation count; when a code column
is detected but no quantity column, it fails naming Cantidad likewise.  The
sheet with columns Foo, Bar therefore fails naming Código, listing "Foo, Bar";
a 12-column sheet is listed truncated to 10 labels plus "(+2 más)". -/
theorem process_detect_missing_column :
    (∀ cols : List Str, detect_column cols CODIGO_PATTERNS = none →
      process_detect cols = Except.error
        (S "No se encontró la columna de Código. Columnas disponibles: " ++
          available_cols_str cols)) ∧
    (∀ cols : List Str, ∀ cc : Str, detect_column cols CODIGO_PATTERNS = some cc →
      detect_column cols CANTIDAD_PATTERNS = none →
      process_detect cols = Except.error
        (S "No se encontró la columna de Cantidad. Columnas disponibles: " ++
          available_cols_str cols)) ∧
    process_detect [S "Foo", S "Bar"] = Except.error
      (S "No se encontró la columna de Código. Columnas disponibles: Foo, Bar") ∧
    available_cols_str [S "c1", S "c2", S "c3", S "c4", S "c5", S "c6", S "c7",
        S "c8", S "c9", S "c10", S "c11", S "c12"] =
      S "c1, c2, c3, c4, c5, c6, c7, c8, c9, c10... (+2 más)" := by
  refine ⟨?_, ?_, by decide, by decide⟩
  · intro cols h
    simp only [process_detect]
    rw [h]
  · intro cols cc h1 h2
    simp only [process_detect]
    rw [h1, h2]

/-- C7 counterexample: on the sheet with columns Foo, Bar (no quantity-like
and no code-like header) the error names Código, not Cantidad as claimed. -/
theorem process_detect_foo_bar_cex :
    process_detect [S "Foo", S "Bar"] = Except.error
      (S "No se encontró la columna de Código. Columnas disponibles: Foo, Bar") ∧
    (Except.error (S "No se encontró la columna de Código. Columnas disponibles: Foo, Bar") :
        Except Str (Str × Option Str × Str)) ≠
      Except.error (S "No se encontró la columna de Cantidad. Columnas disponibles: Foo, Bar") := by
  decide

/-- C7 witness: the two conditional error rules applied at concrete sheets
satisfying their hypotheses. -/
theorem process_detect_missing_column_witness :
    (detect_column [S "Foo", S "Bar"] CODIGO_PATTERNS = none ∧
      process_detect [S "Foo", S "Bar"] = Except.error
        (S "No se encontró la columna de Código. Columnas disponibles: " ++
          available_cols_str [S "Foo", S "Bar"])) ∧
    (detect_column [S "Codigo"] CODIGO_PATTERNS = some (S "Codigo") ∧
      detect_column [S "Codigo"] CANTIDAD_PATTERNS = none ∧
      process_detect [S "Codigo"] = Except.error
        (S "No se encontró la columna de Cantidad. Columnas disponibles: " ++
          available_cols_str [S "Codigo"])) :=
  ⟨⟨by decide, process_detect_missing_column.1 [S "Foo", S "Bar"] (by decide)⟩,
   ⟨by decide, by decide,
    process_detect_missing_column.2.1 [S "Codigo"] (S "Codigo") (by decide) (by decide)⟩⟩

/-! ### Header-row detection (`read_excel_file`, C9) -/

/-- `header_keywords` from the source. -/
def header_keywords : List Str :=
  [S "codigo", S "código", S "cod", S "producto", S "descripcion", S "descripción",
   S "cantidad", S "cant", S "stock", S "unidades", S "total", S "item", S "articulo",
   S "artículo", S "material", S "referencia", S "nombre", S "detalle"]

/-- Prefix test (used to implement Python's substring operator). -/
def leadsWith : Str → Str → Bool
  | [], _ => true
  | _ :: _, [] => false
  | c :: k, d :: t => c == d && leadsWith k t

/-- Python's substring operator `kw in v`. -/
def hasSeg (kw : Str) : Str → Bool
  | [] => kw.isEmpty
  | s@(_ :: t) => leadsWith kw s || hasSeg kw t

/-- Per-cell normalization in header detection: `str(v).lower().strip()`. -/
def cellClean (v : Str) : Str := trim (lowerStr v)

/-- Keyword score of one row: the number of (cell, keyword) pairs where the
keyword occurs as a substring of the cleaned, re-lowercased cell, exactly as
`sum(1 for v in row_values for kw in header_keywords if kw in v.lower())`. -/
def rowScore (row : List Str) : Nat :=
  ((row.map cellClean).map
    (fun v => (header_keywords.filter (fun kw => hasSeg kw (lowerStr v))).length)).sum

/-- Index of the first row with keyword score at least 2 (the `break` in the
source's scanning loop). -/
def first_header_index : List (List Str) → Option Nat
  | [] => none
  | r :: rest =>
    if 2 ≤ rowScore r then some 0 else (first_header_index rest).map (· + 1)

/-- Header-row detection of `read_excel_file`: only the first 30 rows are
scanned (`nrows=30`), the first row scoring at least 2 wins. -/
def find_header_row (rows : List (List Str)) : Option Nat :=
  first_header_index (rows.take 30)

/-- How `read_excel_file` proceeds after header detection. -/
inductive HeaderMode where
  | headerAt (i : Nat)
  | positional
deriving DecidableEq

/-- `read_excel_file` re-reads with the detected header row, or falls back to
positional column inference (`assign_positional_columns`) when none found. -/
def header_mode (rows : List (List Str)) : HeaderMode :=
  match find_header_row rows with
  | some i => HeaderMode.headerAt i
  | none => HeaderMode.positional

theorem first_header_index_some :
    ∀ (l : List (List Str)) (i : Nat),
      first_header_index l = some i ↔
        (∃ r, l[i]? = some r ∧ 2 ≤ rowScore r) ∧
        ∀ j, j < i → ∀ r, l[j]? = some r → rowScore r < 2 := by
  intro l
  induction l with
  | nil =>
    intro i
    simp [first_header_index]
  | cons r0 rest ih =>
    intro i
    by_cases h : 2 ≤ rowScore r0
    · rw [show first_header_index (r0 :: rest) = some 0 from by
        simp [first_header_index, h]]
      constructor
      · intro he
        injection he with he
        subst he
        exact ⟨⟨r0, by simp, h⟩, fun j hj => absurd hj (Nat.not_lt_zero j)⟩
      · rintro ⟨⟨r, hr, hs⟩, hall⟩
        cases i with
        | zero => rfl
        | succ k =>
          have h0 := hall 0 (Nat.succ_pos k) r0 (by simp)
          omega
    · have hlt : rowScore r0 < 2 := by omega
      rw [show first_header_index (r0 :: rest) = (first_header_index rest).map (· + 1) from by
        simp [first_header_index, h]]
      constructor
      · intro he
        rcases Option.map_eq_some'.mp he with ⟨k, hk, rfl⟩
        rcases (ih k).mp hk with ⟨⟨r, hr, hs⟩, hall⟩
        refine ⟨⟨r, by simpa using hr, hs⟩, ?_⟩
        intro j hj rr hrr
        cases j with
        | zero =>
          simp only [List.getElem?_cons_zero, Option.some.injEq] at hrr
          rw [← hrr]
          exact hlt
        | succ m =>
          exact hall m (by omega) rr (by simpa using hrr)
      · rintro ⟨⟨r, hr, hs⟩, hall⟩
        cases i with
        | zero =>
          simp only [List.getElem?_cons_zero, Option.some.injEq] at hr
          rw [← hr] at hs
          omega
        | succ k =>
          rw [Option.map_eq_some']
          refine ⟨k, (ih k).mpr ⟨⟨r, by simpa using hr, hs⟩, ?_⟩, rfl⟩
          intro j hj rr hrr
          exact hall (j + 1) (by omega) rr (by simpa using hrr)

theorem first_header_index_none :
    ∀ l : List (List Str),
      first_header_index l = none ↔
        ∀ i : Nat, ∀ r, l[i]? = some r → rowScore r < 2 := by
  intro l
  induction l with
  | nil => simp [first_header_index]
  | cons r0 rest ih =>
    by_cases h : 2 ≤ rowScore r0
    · rw [show first_header_index (r0 :: rest) = some 0 from by
        simp [first_header_index, h]]
      constructor
      · intro he
        cases he
      · intro hall
        have h0 := hall 0 r0 (by simp)
        omega
    · have hlt : rowScore r0 < 2 := by omega
      rw [show first_header_index (r0 :: rest) = (first_header_index rest).map (· + 1) from by
        simp [first_header_index, h]]
      rw [Option.map_eq_none', ih]
      constructor
      · intro hall i r hr
        cases i with
        | zero =>
          simp only [List.getElem?_cons_zero, Option.some.injEq] at hr
          rw [← hr]
          exact hlt
        | succ k => exact hall k r (by simpa using hr)
      · intro hall i r hr
        exact hall (i + 1) r (by simpa using hr)

/-- C9: header-row detection is deterministic: only the first 30 rows are
scanned, the chosen row is exactly the earliest scanned row with keyword score
at least 2, `none` is returned exactly when no scanned row reaches score 2,
and in that case positional inference is used. -/
theorem find_header_row_spec (rows : List (List Str)) :
    (∀ i : Nat, find_header_row rows = some i ↔
      ((∃ r, (rows.take 30)[i]? = some r ∧ 2 ≤ rowScore r) ∧
        ∀ j, j < i → ∀ r, (rows.take 30)[j]? = some r → rowScore r < 2)) ∧
    (find_header_row rows = none ↔
      ∀ i : Nat, ∀ r, (rows.take 30)[i]? = some r → rowScore r < 2) ∧
    (header_mode rows = HeaderMode.positional ↔ find_header_row rows = none) := by
  refine ⟨fun i => first_header_index_some _ i, first_header_index_none _, ?_⟩
  unfold header_mode
  cases h : find_header_row rows <;> simp

/-! ### Table builder (`clean_dataframe`, `aggregate_by_code`; C5/C6) -/

/-- One row of a cleaned/canonical table: the `Código`, `Producto`, `Cantidad`
columns. -/
structure Registro where
  codigo : Str
  producto : Str
  cantidad : ℚ
deriving DecidableEq

/-- The code column of a table. -/
def codes (l : List Registro) : List Str := l.map (fun r => r.codigo)

/-- `first_non_empty` from `aggregate_by_code`: the first value that is
non-empty, has a non-empty strip, and does not strip-uppercase to "NAN";
the original (unstripped) value is returned, `''` if none qualifies. -/
def first_non_empty (l : List Str) : Str :=
  match l.find? (fun v =>
      !v.isEmpty && !(trim v).isEmpty && !(upperStr (trim v) == S "NAN")) with
  | some v => v
  | none => []

/-- `aggregate_by_code` from the source: group rows by code, summing
quantities and taking the first non-empty product per group in original row
order.  pandas' `groupby` emits the groups sorted by key; the key order is
irrelevant to every verified property, so the keys are taken in `dedup`
order here, while per-group row order is original order, as in the source. -/
def aggregate_by_code (df : List Registro) : List Registro :=
  (codes df).dedup.map (fun c =>
    { codigo := c
      producto := first_non_empty
        ((df.filter (fun r => r.codigo == c)).map (fun r => r.producto))
      cantidad := ((df.filter (fun r => r.codigo == c)).map (fun r => r.cantidad)).sum })

/-- One raw sheet row restricted to the three detected columns; `none` models
a NaN cell of the `dtype=str` frame. -/
structure RawRow where
  codigo : Option Str
  producto : Option Str
  cantidad : Option Str
deriving DecidableEq

/-- Python `str()` of a possibly-NaN cell (`str(nan) = "nan"`, as produced by
`astype(str)` and by `clean_code_format`'s own `str(code)`). -/
def pyStr : Option Str → Str
  | none => S "nan"
  | some s => s

/-- `clean_dataframe` from the source: drop repeated-header rows (code cell
equal, lowercased and stripped, to the code column's own label), normalize the
three columns, then drop rows whose normalized code is empty or uppercases to
"NAN".  `producto_present` is whether a product column was detected. -/
def clean_dataframe (rows : List RawRow) (codigo_col : Str)
    (producto_present : Bool) : List Registro :=
  let kept := rows.filter (fun r =>
    !(trim (lowerStr (pyStr r.codigo)) == trim (lowerStr codigo_col)))
  let recs : List Registro := kept.map (fun r =>
    { codigo := clean_code_format (pyStr r.codigo)
      producto :=
        if producto_present then
          (if trim (pyStr r.producto) == S "nan" ||
              trim (pyStr r.producto) == S "NaN" ||
              trim (pyStr r.producto) == S "NAN" then []
           else trim (pyStr r.producto))
        else []
      cantidad := clean_quantity r.cantidad })
  (recs.filter (fun r => !(r.codigo == ([] : Str)))).filter
    (fun r => !(upperStr r.codigo == S "NAN"))

theorem find?_eq_self_of_mem {c : Str} {l : List Str} (hc : c ∈ l) :
    l.find? (fun x => x == c) = some c := by
  induction l with
  | nil => cases hc
  | cons a t ih =>
    by_cases h : a = c
    · subst h
      rw [List.find?_cons_of_pos _ (by simp)]
    · rw [List.find?_cons_of_neg _ (by simp [h])]
      rcases List.mem_cons.mp hc with rfl | hc'
      · exact absurd rfl h
      · exact ih hc'

theorem find?_map_key {α β : Type} (key : α → Str) (g : α → β) (kf : β → Str)
    (hg : ∀ a, kf (g a) = key a) (c : Str) :
    ∀ l : List α, (l.map g).find? (fun b => kf b == c) =
      (l.find? (fun a => key a == c)).map g := by
  intro l
  induction l with
  | nil => simp
  | cons a t ih =>
    rw [List.map_cons]
    by_cases h : key a = c
    · rw [List.find?_cons_of_pos _ (by simp [hg, h]),
        List.find?_cons_of_pos _ (by simp [h])]
      rfl
    · rw [List.find?_cons_of_neg _ (by simp [hg, h]),
        List.find?_cons_of_neg _ (by simp [h])]
      exact ih

theorem codes_aggregate (df : List Registro) :
    codes (aggregate_by_code df) = (codes df).dedup := by
  unfold codes aggregate_by_code
  rw [List.map_map]
  exact List.map_id _

/-- C5: aggregation by code: for every table and every code occurring in it,
the aggregated table's record for that code carries the sum of that code's
row quantities and the first non-empty, non-"NAN" product value in original
row order; the aggregated key list is the deduplicated code list. -/
theorem aggregate_by_code_spec (df : List Registro) (c : Str) (hc : c ∈ codes df) :
    codes (aggregate_by_code df) = (codes df).dedup ∧
    (aggregate_by_code df).find? (fun r => r.codigo == c) =
      some { codigo := c
             producto := first_non_empty
               ((df.filter (fun r => r.codigo == c)).map (fun r => r.producto))
             cantidad :=
               ((df.filter (fun r => r.codigo == c)).map (fun r => r.cantidad)).sum } := by
  refine ⟨codes_aggregate df, ?_⟩
  unfold aggregate_by_code
  refine (find?_map_key (fun x : Str => x) _ (fun r : Registro => r.codigo)
    (fun a => rfl) c ((codes df).dedup)).trans ?_
  rw [find?_eq_self_of_mem (List.mem_dedup.mpr hc)]
  rfl

/-- Example table for the aggregation witness: two rows with the same code,
quantities 3 and 7, first product name blank. -/
def dfW : List Registro :=
  [{ codigo := S "A", producto := [], cantidad := 3 },
   { codigo := S "A", producto := S "X", cantidad := 7 }]

/-- C5 witness: the aggregation theorem applied to a table with two rows of
code "A" and quantities 3 and 7: one record, quantity 10, first non-empty
name "X". -/
theorem aggregate_by_code_spec_witness :
    S "A" ∈ codes dfW ∧
    ((aggregate_by_code dfW).find? (fun r => r.codigo == S "A") =
      some { codigo := S "A"
             producto := first_non_empty
               ((dfW.filter (fun r => r.codigo == S "A")).map (fun r => r.producto))
             cantidad :=
               ((dfW.filter (fun r => r.codigo == S "A")).map (fun r => r.cantidad)).sum }) ∧
    first_non_empty
      ((dfW.filter (fun r => r.codigo == S "A")).map (fun r => r.producto)) = S "X" ∧
    ((dfW.filter (fun r => r.codigo == S "A")).map (fun r => r.cantidad)).sum = 10 :=
  ⟨by decide, (aggregate_by_code_spec dfW (S "A") (by decide)).2, by decide, by
    have e : (dfW.filter (fun r => r.codigo == S "A")).map (fun r => r.cantidad) =
        [(3 : ℚ), 7] := rfl
    rw [e, List.sum_cons, List.sum_cons, List.sum_nil]
    norm_num⟩

/-- C6: canonical-table invariant: for every input sheet, after
`clean_dataframe` and `aggregate_by_code` no record's code is the empty string
or the literal "NAN", and no two records share a code. -/
theorem clean_dataframe_aggregate_canonical (rows : List RawRow) (codigo_col : Str)
    (producto_present : Bool) :
    (∀ c ∈ codes (aggregate_by_code (clean_dataframe rows codigo_col producto_present)),
      c ≠ [] ∧ c ≠ S "NAN") ∧
    (codes (aggregate_by_code (clean_dataframe rows codigo_col producto_present))).Nodup := by
  constructor
  · intro c hc
    have hcode : c ∈ codes (clean_dataframe rows codigo_col producto_present) := by
      rw [codes_aggregate] at hc
      exact List.mem_dedup.mp hc
    rcases List.mem_map.mp hcode with ⟨rec, hrec, hceq⟩
    simp only [clean_dataframe] at hrec
    have h2 := List.mem_filter.mp hrec
    have h1' := List.mem_filter.mp h2.1
    have hne : rec.codigo ≠ ([] : Str) := by
      intro h
      have hb := h1'.2
      rw [h] at hb
      simp at hb
    have hnan : upperStr rec.codigo ≠ S "NAN" := by
      intro h
      have hb := h2.2
      rw [h] at hb
      simp at hb
    constructor
    · rw [← hceq]
      exact hne
    · intro hN
      apply hnan
      rw [hceq, hN]
      decide
  · rw [codes_aggregate]
    exact List.nodup_dedup _

/-! ### Reconciler (`compare_dataframes`; C1/C4/C10)

The full outer merge on `Código` is modelled as: every row of the left table
in order, joined against the (unique-coded) right table, followed by the
right-only rows in order.  With unique codes on both sides this is exactly
pandas' outer merge row set; every verified property is about per-code
content, sizes and sums, which do not depend on row order. -/

/-- One row of the `comparison_complete` view. -/
structure CompRow where
  codigo : Str
  producto : Str
  cantidad1 : ℚ
  cantidad2 : ℚ
  diferencia : ℚ
deriving DecidableEq

/-- One row of the `not_in_file1`/`not_in_file2` views. -/
structure OnlyRow where
  codigo : Str
  producto : Str
  cantidad : ℚ
deriving DecidableEq

/-- Lookup of a code's record (the unique match of the merge). -/
def findRec (l : List Registro) (c : Str) : Option Registro :=
  l.find? (fun r => decide (r.codigo = c))

/-- A code's quantity in a table, `fillna(0)`: 0 when absent. -/
def findQty (l : List Registro) (c : Str) : ℚ :=
  match findRec l c with
  | some r => r.cantidad
  | none => 0

/-- A merged row coming from the left table: both quantities when the code is
matched (`both`), else the right quantity filled with 0 (`left_only`);
`Diferencia` is their difference, `Producto` the coalesced product name
(file 1 preferred, file 2 as fallback, stripped). -/
def leftRow (B : List Registro) (a : Registro) : CompRow :=
  match findRec B a.codigo with
  | some b =>
    { codigo := a.codigo
      producto := trim (if a.producto = ([] : Str) then b.producto else a.producto)
      cantidad1 := a.cantidad
      cantidad2 := b.cantidad
      diferencia := a.cantidad - b.cantidad }
  | none =>
    { codigo := a.codigo
      producto := trim a.producto
      cantidad1 := a.cantidad
      cantidad2 := 0
      diferencia := a.cantidad - 0 }

/-- A merged row for a code present only in the right table (`right_only`):
the left quantity filled with 0. -/
def rightOnlyRow (b : Registro) : CompRow :=
  { codigo := b.codigo
    producto := trim b.producto
    cantidad1 := 0
    cantidad2 := b.cantidad
    diferencia := 0 - b.cantidad }

/-- The `comparison_complete` view: one merged row per code of either table. -/
def comparison_complete (A B : List Registro) : List CompRow :=
  A.map (leftRow B) ++
    (B.filter (fun b => !(decide (b.codigo ∈ codes A)))).map rightOnlyRow

/-- The `not_in_file2` view: `left_only` rows with file 1's quantity. -/
def not_in_file2 (A B : List Registro) : List OnlyRow :=
  (A.filter (fun a => !(decide (a.codigo ∈ codes B)))).map
    (fun a => { codigo := a.codigo, producto := trim a.producto, cantidad := a.cantidad })

/-- The `not_in_file1` view: `right_only` rows with file 2's quantity. -/
def not_in_file1 (A B : List Registro) : List OnlyRow :=
  (B.filter (fun b => !(decide (b.codigo ∈ codes A)))).map
    (fun b => { codigo := b.codigo, producto := trim b.producto, cantidad := b.cantidad })

/-- The `Diferencia` entry of the `comparison_complete` row of a given code,
when present. -/
def getDif (l : List CompRow) (c : Str) : Option ℚ :=
  (l.find? (fun r => decide (r.codigo = c))).map (fun r => r.diferencia)

theorem filter_not_mem_length (m : List Str) :
    ∀ l : List Str, l.Nodup →
      (l.filter (fun c => !(decide (c ∈ m)))).length = (l.toFinset \ m.toFinset).card := by
  intro l
  induction l with
  | nil =>
    intro _
    simp
  | cons c t ih =>
    intro hnd
    rcases List.nodup_cons.mp hnd with ⟨hc, hnd'⟩
    by_cases h : c ∈ m
    · rw [List.filter_cons_of_neg (by simp [h]), ih hnd']
      congr 1
      rw [List.toFinset_cons, Finset.insert_sdiff_of_mem _ (List.mem_toFinset.mpr h)]
    · rw [List.filter_cons_of_pos (by simp [h]), List.length_cons, ih hnd',
        List.toFinset_cons, Finset.insert_sdiff_of_not_mem _ (by simp [h]),
        Finset.card_insert_of_not_mem (by simp [hc])]

theorem filter_code_length (B : List Registro) (m : List Str)
    (hB : (codes B).Nodup) :
    (B.filter (fun b => !(decide (b.codigo ∈ m)))).length =
      ((codes B).toFinset \ m.toFinset).card := by
  have h : (B.filter (fun b => !(decide (b.codigo ∈ m)))).length =
      ((codes B).filter (fun c => !(decide (c ∈ m)))).length := by
    clear hB
    unfold codes
    induction B with
    | nil => simp
    | cons b t ih =>
      rw [List.map_cons]
      by_cases h : b.codigo ∈ m
      · rw [List.filter_cons_of_neg (by simp [h]),
          List.filter_cons_of_neg (by simp [h]), ih]
      · rw [List.filter_cons_of_pos (by simp [h]),
          List.filter_cons_of_pos (by simp [h]),
          List.length_cons, List.length_cons, ih]
  rw [h, filter_not_mem_length m (codes B) hB]

/-- C1: reconciliation totals: with unique codes on both sides, the complete
comparison has one row per code of either table, and the two only-in-one-file
views plus the shared codes account exactly for the complete view's size. -/
theorem comparison_complete_counts (A B : List Registro)
    (hA : (codes A).Nodup) (hB : (codes B).Nodup) :
    (comparison_complete A B).length =
      ((codes A).toFinset ∪ (codes B).toFinset).card ∧
    (not_in_file2 A B).length + (not_in_file1 A B).length +
        ((codes A).toFinset ∩ (codes B).toFinset).card =
      (comparison_complete A B).length := by
  have hlen : (comparison_complete A B).length =
      A.length + (B.filter (fun b => !(decide (b.codigo ∈ codes A)))).length := by
    simp [comparison_complete]
  have h1 : (B.filter (fun b => !(decide (b.codigo ∈ codes A)))).length =
      ((codes B).toFinset \ (codes A).toFinset).card := filter_code_length B _ hB
  have h2 : (not_in_file2 A B).length =
      ((codes A).toFinset \ (codes B).toFinset).card := by
    rw [show (not_in_file2 A B).length =
        (A.filter (fun a => !(decide (a.codigo ∈ codes B)))).length from by
      simp [not_in_file2]]
    exact filter_code_length A _ hA
  have h3 : (not_in_file1 A B).length =
      ((codes B).toFinset \ (codes A).toFinset).card := by
    rw [show (not_in_file1 A B).length =
        (B.filter (fun b => !(decide (b.codigo ∈ codes A)))).length from by
      simp [not_in_file1]]
    exact filter_code_length B _ hB
  have hcardA : (codes A).toFinset.card = A.length := by
    rw [List.toFinset_card_of_nodup hA]
    simp [codes]
  have hu : ((codes B).toFinset \ (codes A).toFinset).card + (codes A).toFinset.card =
      ((codes A).toFinset ∪ (codes B).toFinset).card := by
    rw [Finset.card_sdiff_add_card, Finset.union_comm]
  have hi : ((codes A).toFinset ∩ (codes B).toFinset).card +
      ((codes A).toFinset \ (codes B).toFinset).card = (codes A).toFinset.card :=
    Finset.card_inter_add_card_sdiff _ _
  constructor
  · rw [hlen, h1]
    omega
  · rw [hlen, h1, h2, h3]
    omega

theorem leftRow_codigo (B : List Registro) (a : Registro) :
    (leftRow B a).codigo = a.codigo := by
  unfold leftRow
  split <;> rfl

theorem leftRow_dif (B : List Registro) (a : Registro) :
    (leftRow B a).diferencia = a.cantidad - findQty B a.codigo := by
  unfold leftRow findQty
  rcases h : findRec B a.codigo with _ | b <;> simp [h]

theorem find?_filter_conj {α : Type} (f p : α → Bool) (l : List α) :
    (l.filter f).find? p = l.find? (fun x => f x && p x) := by
  induction l with
  | nil => rfl
  | cons a t ih =>
    by_cases hf : f a = true
    · rw [List.filter_cons_of_pos hf]
      by_cases hp : p a = true
      · rw [List.find?_cons_of_pos _ hp, List.find?_cons_of_pos _ (by simp [hf, hp])]
      · rw [List.find?_cons_of_neg _ hp, List.find?_cons_of_neg _ (by simp [hp]), ih]
    · rw [List.filter_cons_of_neg hf, List.find?_cons_of_neg _ (by simp [hf]), ih]

theorem getDif_comparison (A B : List Registro) (c : Str) :
    getDif (comparison_complete A B) c =
      if c ∈ codes A ∨ c ∈ codes B then some (findQty A c - findQty B c)
      else none := by
  unfold getDif comparison_complete
  rw [List.find?_append, List.find?_map]
  have hp : ((fun r : CompRow => decide (r.codigo = c)) ∘ leftRow B) =
      (fun a : Registro => decide (a.codigo = c)) := by
    funext a
    simp [Function.comp, leftRow_codigo]
  rw [hp]
  by_cases hA : c ∈ codes A
  · rcases hfa : A.find? (fun a => decide (a.codigo = c)) with _ | a0
    · exfalso
      rw [List.find?_eq_none] at hfa
      rcases List.mem_map.mp hA with ⟨a, ha, hac⟩
      exact hfa a ha (by simp [hac])
    · have ha0 : a0.codigo = c := by simpa using List.find?_some hfa
      have hq : findQty A c = a0.cantidad := by
        unfold findQty findRec
        rw [hfa]
      rw [if_pos (Or.inl hA), hfa]
      simp only [Option.map_some', Option.or_some]
      rw [leftRow_dif, ha0, hq]
  · rcases hfa : A.find? (fun a => decide (a.codigo = c)) with _ | a0
    swap
    · exfalso
      have ha0 : a0.codigo = c := by simpa using List.find?_some hfa
      exact hA (ha0 ▸ List.mem_map_of_mem _ (List.mem_of_find?_eq_some hfa))
    · rw [hfa]
      simp only [Option.map_none', Option.none_or]
      rw [List.find?_map]
      have hp2 : ((fun r : CompRow => decide (r.codigo = c)) ∘ rightOnlyRow) =
          (fun b : Registro => decide (b.codigo = c)) := by
        funext b
        simp [Function.comp, rightOnlyRow]
      rw [hp2, find?_filter_conj]
      have hq0 : findQty A c = 0 := by
        unfold findQty findRec
        rw [hfa]
      by_cases hB : c ∈ codes B
      · have hp3 : (fun b : Registro =>
            (!(decide (b.codigo ∈ codes A))) && decide (b.codigo = c)) =
            (fun b : Registro => decide (b.codigo = c)) := by
          funext b
          by_cases hbc : b.codigo = c
          · simp [hbc, hA]
          · simp [hbc]
        rw [hp3]
        rcases hfb : B.find? (fun b => decide (b.codigo = c)) with _ | b0
        · exfalso
          rw [List.find?_eq_none] at hfb
          rcases List.mem_map.mp hB with ⟨b, hb, hbc⟩
          exact hfb b hb (by simp [hbc])
        · have hqb : findQty B c = b0.cantidad := by
            unfold findQty findRec
            rw [hfb]
          rw [if_pos (Or.inr hB), hq0, hqb, hfb]
          simp [rightOnlyRow]
      · rw [if_neg (by tauto)]
        rw [show B.find? (fun b =>
            (!(decide (b.codigo ∈ codes A))) && decide (b.codigo = c)) = none from ?_]
        · rfl
        · rw [List.find?_eq_none]
          intro b hb
          by_cases hbc : b.codigo = c
          · exact absurd (hbc ▸ List.mem_map_of_mem _ hb) hB
          · simp [hbc]

/-- C4: the reconciler is symmetric in its inputs: swapping the tables negates
every per-code difference in the complete view, and exchanges the two
only-in-one-file views (same codes and quantities). -/
theorem compare_swap_symm (A B : List Registro)
    (hA : (codes A).Nodup) (hB : (codes B).Nodup) :
    (∀ c : Str, getDif (comparison_complete B A) c =
      (getDif (comparison_complete A B) c).map (fun q => -q)) ∧
    (not_in_file2 B A).map (fun r => (r.codigo, r.cantidad)) =
      (not_in_file1 A B).map (fun r => (r.codigo, r.cantidad)) ∧
    (not_in_file1 B A).map (fun r => (r.codigo, r.cantidad)) =
      (not_in_file2 A B).map (fun r => (r.codigo, r.cantidad)) := by
  refine ⟨?_, rfl, rfl⟩
  intro c
  rw [getDif_comparison, getDif_comparison]
  by_cases h : c ∈ codes A ∨ c ∈ codes B
  · rw [if_pos h.symm, if_pos h]
    rw [Option.map_some']
    congr 1
    ring
  · rw [if_neg (fun hh => h hh.symm), if_neg h]
    rfl

theorem sum_map_zero {α : Type} (l : List α) :
    (l.map (fun _ => (0 : ℚ))).sum = 0 := by
  induction l with
  | nil => simp
  | cons a t ih => simp [ih]

theorem sum_map_sub {α : Type} (f g : α → ℚ) (l : List α) :
    (l.map (fun x => f x - g x)).sum = (l.map f).sum - (l.map g).sum := by
  induction l with
  | nil => simp
  | cons a t ih =>
    simp only [List.map_cons, List.sum_cons, ih]
    ring

theorem sum_map_filter_split {α : Type} (f : α → ℚ) (p : α → Bool) (l : List α) :
    ((l.filter p).map f).sum + ((l.filter (fun x => !p x)).map f).sum =
      (l.map f).sum := by
  induction l with
  | nil => simp
  | cons a t ih =>
    by_cases h : p a = true
    · rw [List.filter_cons_of_pos h, List.filter_cons_of_neg (by simp [h])]
      simp only [List.map_cons, List.sum_cons]
      rw [add_assoc, ih]
    · have hf : p a = false := by simpa using h
      rw [List.filter_cons_of_neg (by simp [hf]), List.filter_cons_of_pos (by simp [hf])]
      simp only [List.map_cons, List.sum_cons]
      rw [← ih]
      ring

theorem sum_map_filter_or {α : Type} (f : α → ℚ) (p q : α → Bool) (l : List α)
    (hdisj : ∀ x ∈ l, ¬(p x = true ∧ q x = true)) :
    ((l.filter (fun x => p x || q x)).map f).sum =
      ((l.filter p).map f).sum + ((l.filter q).map f).sum := by
  induction l with
  | nil => simp
  | cons a t ih =>
    have ih' := ih (fun x hx => hdisj x (List.mem_cons_of_mem _ hx))
    by_cases hp : p a = true
    · have hq : q a = false := by
        cases hqv : q a
        · rfl
        · exact absurd ⟨hp, hqv⟩ (hdisj a (List.mem_cons_self _ _))
      rw [List.filter_cons_of_pos (by simp [hp]), List.filter_cons_of_pos hp,
        List.filter_cons_of_neg (by simp [hq])]
      simp only [List.map_cons, List.sum_cons]
      rw [ih', add_assoc]
    · have hpf : p a = false := by simpa using hp
      by_cases hq : q a = true
      · rw [List.filter_cons_of_pos (by simp [hpf, hq]),
          List.filter_cons_of_neg (by simp [hpf]), List.filter_cons_of_pos hq]
        simp only [List.map_cons, List.sum_cons]
        rw [ih']
        ring
      · have hqf : q a = false := by simpa using hq
        rw [List.filter_cons_of_neg (by simp [hpf, hqf]),
          List.filter_cons_of_neg (by simp [hpf]),
          List.filter_cons_of_neg (by simp [hqf]), ih']

theorem filter_code_eq_nil (t : List Registro) (c : Str) (h : ¬ c ∈ codes t) :
    t.filter (fun b => decide (b.codigo = c)) = [] := by
  rw [List.filter_eq_nil_iff]
  intro b hb
  simp only [decide_eq_true_eq]
  intro he
  exact h (he ▸ List.mem_map_of_mem _ hb)

theorem findQty_eq_sum (B : List Registro) (hB : (codes B).Nodup) (c : Str) :
    findQty B c =
      ((B.filter (fun b => decide (b.codigo = c))).map (fun b => b.cantidad)).sum := by
  induction B with
  | nil => simp [findQty, findRec]
  | cons b t ih =>
    have hcons := List.nodup_cons.mp (show (b.codigo :: codes t).Nodup from hB)
    by_cases h : b.codigo = c
    · subst h
      rw [show findQty (b :: t) b.codigo = b.cantidad from by
        unfold findQty findRec
        rw [List.find?_cons_of_pos _ (by simp)]]
      rw [List.filter_cons_of_pos (by simp), filter_code_eq_nil t _ hcons.1]
      simp
    · rw [show findQty (b :: t) c = findQty t c from by
        unfold findQty findRec
        rw [List.find?_cons_of_neg _ (by simp [h])]]
      rw [List.filter_cons_of_neg (by simp [h])]
      exact ih hcons.2

theorem sum_findQty (B : List Registro) (hB : (codes B).Nodup) :
    ∀ l : List Str, l.Nodup →
      (l.map (findQty B)).sum =
        ((B.filter (fun b => decide (b.codigo ∈ l))).map (fun b => b.cantidad)).sum := by
  intro l
  induction l with
  | nil =>
    intro _
    rw [show B.filter (fun b => decide (b.codigo ∈ ([] : List Str))) = [] from
      List.filter_eq_nil_iff.mpr (fun b _ => by simp)]
    simp
  | cons c l' ih =>
    intro hnd
    rcases List.nodup_cons.mp hnd with ⟨hc, hnd'⟩
    rw [List.map_cons, List.sum_cons, ih hnd']
    have hpred : (fun b : Registro => decide (b.codigo ∈ c :: l')) =
        (fun b : Registro => decide (b.codigo = c) || decide (b.codigo ∈ l')) := by
      funext b
      by_cases h1 : b.codigo = c
      · simp [h1]
      · by_cases h2 : b.codigo ∈ l' <;> simp [h1, h2]
    rw [hpred]
    rw [sum_map_filter_or (fun b : Registro => b.cantidad)
      (fun b => decide (b.codigo = c)) (fun b => decide (b.codigo ∈ l')) B
      (fun b _ => by
        rintro ⟨h1, h2⟩
        rw [decide_eq_true_eq] at h1 h2
        exact hc (h1 ▸ h2))]
    rw [findQty_eq_sum B hB c]

/-- C10: the total reported difference: with unique codes on both sides, the
sum of `Diferencia` over the complete comparison (the "Diferencia total de
cantidades" of the summary) equals the sum of table 1's quantities minus the
sum of table 2's quantities. -/
theorem comparison_total_difference (A B : List Registro)
    (hA : (codes A).Nodup) (hB : (codes B).Nodup) :
    ((comparison_complete A B).map (fun r => r.diferencia)).sum =
      (A.map (fun r => r.cantidad)).sum - (B.map (fun r => r.cantidad)).sum := by
  unfold comparison_complete
  rw [List.map_append, List.sum_append, List.map_map, List.map_map]
  have hleft : ((fun r : CompRow => r.diferencia) ∘ leftRow B) =
      (fun a : Registro => a.cantidad - findQty B a.codigo) := by
    funext a
    simp [Function.comp, leftRow_dif]
  rw [hleft]
  have hr2 : ((B.filter (fun b => !(decide (b.codigo ∈ codes A)))).map
      ((fun r : CompRow => r.diferencia) ∘ rightOnlyRow)).sum =
      0 - ((B.filter (fun b => !(decide (b.codigo ∈ codes A)))).map
        (fun b : Registro => b.cantidad)).sum := by
    rw [show ((fun r : CompRow => r.diferencia) ∘ rightOnlyRow) =
        (fun b : Registro => 0 - b.cantidad) from by
      funext b
      simp [Function.comp, rightOnlyRow]]
    rw [sum_map_sub (fun _ => (0 : ℚ)) (fun b : Registro => b.cantidad)]
    congr 1
    exact sum_map_zero _
  rw [hr2]
  rw [sum_map_sub (fun a : Registro => a.cantidad) (fun a => findQty B a.codigo)]
  have hfq : (A.map (fun a => findQty B a.codigo)).sum =
      ((B.filter (fun b => decide (b.codigo ∈ codes A))).map
        (fun b : Registro => b.cantidad)).sum := by
    have h1 : A.map (fun a => findQty B a.codigo) = (codes A).map (findQty B) := by
      unfold codes
      rw [List.map_map]
      rfl
    rw [h1]
    exact sum_findQty B hB (codes A) hA
  rw [hfq]
  have hsplit := sum_map_filter_split (fun b : Registro => b.cantidad)
      (fun b => decide (b.codigo ∈ codes A)) B
  linarith [hsplit]

/-- Example canonical tables for the reconciler witnesses: codes A, B on the
left, codes B, C on the right. -/
def tblA : List Registro :=
  [{ codigo := S "A", producto := S "pa", cantidad := 1 },
   { codigo := S "B", producto := [], cantidad := 2 }]

/-- Right-hand example table. -/
def tblB : List Registro :=
  [{ codigo := S "B", producto := S "pb", cantidad := 5 },
   { codigo := S "C", producto := S "pc", cantidad := 7 }]

/-- C1 witness: the reconciliation totals theorem applied to the example
tables. -/
theorem comparison_complete_counts_witness :
    ((codes tblA).Nodup ∧ (codes tblB).Nodup) ∧
    ((comparison_complete tblA tblB).length =
        ((codes tblA).toFinset ∪ (codes tblB).toFinset).card ∧
      (not_in_file2 tblA tblB).length + (not_in_file1 tblA tblB).length +
          ((codes tblA).toFinset ∩ (codes tblB).toFinset).card =
        (comparison_complete tblA tblB).length) :=
  ⟨⟨by decide, by decide⟩, comparison_complete_counts tblA tblB (by decide) (by decide)⟩

/-- C4 witness: the symmetry theorem applied to the example tables. -/
theorem compare_swap_symm_witness :
    ((codes tblA).Nodup ∧ (codes tblB).Nodup) ∧
    ((∀ c : Str, getDif (comparison_complete tblB tblA) c =
        (getDif (comparison_complete tblA tblB) c).map (fun q => -q)) ∧
      (not_in_file2 tblB tblA).map (fun r => (r.codigo, r.cantidad)) =
        (not_in_file1 tblA tblB).map (fun r => (r.codigo, r.cantidad)) ∧
      (not_in_file1 tblB tblA).map (fun r => (r.codigo, r.cantidad)) =
        (not_in_file2 tblA tblB).map (fun r => (r.codigo, r.cantidad))) :=
  ⟨⟨by decide, by decide⟩, compare_swap_symm tblA tblB (by decide) (by decide)⟩

/-- C10 witness: the total-difference theorem applied to the example tables. -/
theorem comparison_total_difference_witness :
    ((codes tblA).Nodup ∧ (codes tblB).Nodup) ∧
    ((comparison_complete tblA tblB).map (fun r => r.diferencia)).sum =
      (tblA.map (fun r => r.cantidad)).sum - (tblB.map (fun r => r.cantidad)).sum :=
  ⟨⟨by decide, by decide⟩, comparison_total_difference tblA tblB (by decide) (by decide)⟩

/-- Example raw sheet for the canonical-table witness: one good row (with an
Excel float artifact in the code) and one NaN-coded row. -/
def rawW : List RawRow :=
  [{ codigo := some (S "806.0"), producto := some (S "Laptop"), cantidad := none },
   { codigo := some (S "nan"), producto := none, cantidad := none }]

/-- C6 witness: the canonical-table invariant applied to a concrete sheet:
the surviving code is "806", non-empty and not "NAN", and codes are unique. -/
theorem clean_dataframe_aggregate_canonical_witness :
    (S "806" ∈ codes (aggregate_by_code (clean_dataframe rawW (S "Código") true))) ∧
    ((S "806" : Str) ≠ [] ∧ (S "806" : Str) ≠ S "NAN") ∧
    (codes (aggregate_by_code (clean_dataframe rawW (S "Código") true))).Nodup :=
  ⟨by decide,
   (clean_dataframe_aggregate_canonical rawW (S "Código") true).1 _ (by decide),
   (clean_dataframe_aggregate_canonical rawW (S "Código") true).2⟩
